import Mathlib

/-!
Verification development for the cacheable-styles core: the abstract style
algebra (`AbstractStyle`), the composer (`createStyle`, `dynamicStyle`,
`createDynamicStyle`, `mergeStyles`), the resolver (`computeStyles` with
`mergeComputedStyles`), and the memoizing style cache with hit/miss
accounting (`createStyleCache`, `cacheGet`, `cacheSet`) as driven by the
`useSystem` entry point.

Style objects are modelled as JSON-like values (`JsVal` / `Fields`), which is
what the source manipulates: plain objects with string keys whose values are
strings, numbers or nested objects.  `JSON.stringify` is modelled by
`stringifyVal` / `stringifyFields`.  The external collaborators are modelled
at their interfaces: the string hash is an arbitrary function parameter, the
per-factory random token of `createDynamicStyle` is a string parameter (it is
generated once per factory from a UUID), the class-name materializer is an
arbitrary function parameter, and the object deep-merge utility is
`deepMergeVal` / `deepMergeObj`.
-/

set_option autoImplicit false

/-- The space character, written via its code point. -/
def spaceChar : Char := Char.ofNat 32

mutual

/-- A JSON-like runtime value: a string, a number, or a plain object. -/
inductive JsVal where
  | str (s : String)
  | num (n : Int)
  | obj (fields : Fields)

/-- The field list of a plain object, in insertion order. -/
inductive Fields where
  | nil
  | cons (key : String) (val : JsVal) (rest : Fields)

end

/-- A CSS style object is a plain object, represented by its field list. -/
abbrev CSS := Fields

/-- JSON string escaping for a single character. -/
def escapeChar (c : Char) : String :=
  if c = Char.ofNat 34 then "\\\""
  else if c = Char.ofNat 92 then "\\\\"
  else if c = Char.ofNat 10 then "\\n"
  else if c = Char.ofNat 9 then "\\t"
  else if c = Char.ofNat 13 then "\\r"
  else String.singleton c

/-- JSON string escaping, character by character. -/
def escapeJson (s : String) : String :=
  String.join (s.data.map escapeChar)

mutual

/-- Model of `JSON.stringify` on a JSON value. -/
def stringifyVal : JsVal → String
  | JsVal.str s => "\"" ++ escapeJson s ++ "\""
  | JsVal.num n => toString n
  | JsVal.obj fs => "\x7b" ++ stringifyFields fs ++ "\x7d"

/-- Model of `JSON.stringify` on the comma-separated fields of an object. -/
def stringifyFields : Fields → String
  | Fields.nil => ""
  | Fields.cons k v Fields.nil => "\"" ++ escapeJson k ++ "\":" ++ stringifyVal v
  | Fields.cons k v rest =>
      "\"" ++ escapeJson k ++ "\":" ++ stringifyVal v ++ "," ++ stringifyFields rest

end

/-- First value stored under a key in a field list, if any. -/
def lookupField (k : String) : Fields → Option JsVal
  | Fields.nil => none
  | Fields.cons k2 v rest => if k2 = k then some v else lookupField k rest

/-- Concatenation of two field lists. -/
def appendFields : Fields → Fields → Fields
  | Fields.nil, b => b
  | Fields.cons k v rest, b => Fields.cons k v (appendFields rest b)

/-- The fields of the second list whose keys are absent from the first list. -/
def filterNewFields (ls : Fields) : Fields → Fields
  | Fields.nil => Fields.nil
  | Fields.cons k v rest =>
      if (lookupField k ls).isSome then filterNewFields ls rest
      else Fields.cons k v (filterNewFields ls rest)

mutual

/-- Modelled from the spec: the external object-deep-merge utility
(the `deepmerge` package), which is out of scope of the repository's code.
Right-hand values override left-hand values on conflicting keys; when both
sides hold plain objects the merge recurses; result keys keep the left
object's order followed by the right object's new keys. -/
def deepMergeVal : JsVal → JsVal → JsVal
  | JsVal.obj ls, JsVal.obj rs =>
      JsVal.obj (appendFields (overrideFields ls rs) (filterNewFields ls rs))
  | _, r => r

/-- Modelled from the spec: the left object's fields with conflicting keys
overridden by (or deep-merged with) the right object's values. -/
def overrideFields : Fields → Fields → Fields
  | Fields.nil, _ => Fields.nil
  | Fields.cons k v rest, rs =>
      Fields.cons k
        (match lookupField k rs with
          | some rv => deepMergeVal v rv
          | none => v)
        (overrideFields rest rs)

end

/-- Modelled from the spec: deep merge of two plain objects. -/
def deepMergeObj (ls rs : Fields) : Fields :=
  appendFields (overrideFields ls rs) (filterNewFields ls rs)

/-- The abstract style node, `AbstractStyle` in the source: either no style
(the TypeScript value `null`), a static style, a merge of two styles, a
dynamic style object, or a dynamic style function bound to a props value. -/
inductive AbstractStyle where
  | nullStyle
  | staticS (key : String) (css : CSS)
  | mergeS (key : String) (left right : AbstractStyle)
  | dynamicObj (key : String) (css : CSS)
  | dynamicFn (key : String) (props : JsVal) (fn : JsVal → CSS)

/-- The sentinel key of the no-style value, `NULL_STYLE_KEY` in the source. -/
def nullStyleKey : String := "0"

/-- `isNullStyle` from the source: the truthiness test on a style node. -/
def isNullStyle : AbstractStyle → Bool
  | AbstractStyle.nullStyle => true
  | _ => false

/-- `getKey` from the source: a node's key, or the sentinel key for null. -/
def getKey : AbstractStyle → String
  | AbstractStyle.nullStyle => nullStyleKey
  | AbstractStyle.staticS k _ => k
  | AbstractStyle.mergeS k _ _ => k
  | AbstractStyle.dynamicObj k _ => k
  | AbstractStyle.dynamicFn k _ _ => k

/-- `createStyle` from the source.  The external string hash
(an opaque collaborator) is passed as the `hashString` parameter;
the key is the hash of the serialized style object. -/
def createStyle (hashString : String → String) (css : CSS) : AbstractStyle :=
  AbstractStyle.staticS (hashString (stringifyVal (JsVal.obj css))) css

/-- `dynamicStyle` from the source: the raw serialization is the key. -/
def dynamicStyle (css : CSS) : AbstractStyle :=
  AbstractStyle.dynamicObj (stringifyVal (JsVal.obj css)) css

/-- The applier returned by `createDynamicStyle` from the source.  The
factory generates one random base token (a hash of a UUID) at
factory-creation time; that token is the `keyBase` parameter here.  A
string-valued props value is used verbatim as the props serialization,
any other props value is JSON-serialized. -/
def createDynamicStyle (keyBase : String) (fn : JsVal → CSS) (props : JsVal) :
    AbstractStyle :=
  let propsKey :=
    match props with
    | JsVal.str s => s
    | p => stringifyVal p
  AbstractStyle.dynamicFn (keyBase ++ "(" ++ propsKey ++ ")") props fn

/-- `mergeStyles` from the source: merging with null returns the other node;
merging equal keys returns the left node; merging with a right-hand merge
node re-associates to the left; otherwise a merge node is built whose key is
the left key, a space, and the right key. -/
def mergeStyles (left : AbstractStyle) (right : AbstractStyle) : AbstractStyle :=
  if isNullStyle left then right
  else if isNullStyle right then left
  else if getKey left = getKey right then left
  else
    match right with
    | AbstractStyle.mergeS _ r1 r2 => mergeStyles (mergeStyles left r1) r2
    | _ =>
        AbstractStyle.mergeS (getKey left ++ " " ++ getKey right) left right

/-- `mergeComputedStyles` from the source: an absent side yields the other
side unchanged; two present sides are deep-merged, right over left. -/
def mergeComputedStyles : Option CSS → Option CSS → Option CSS
  | none, r => r
  | some l, none => some l
  | some l, some r => some (deepMergeObj l r)

/-- `computeStyles` from the source: the resolver.  Null resolves to absent;
static and dynamic objects resolve to their stored object; a merge node
resolves both sides and combines them with `mergeComputedStyles`; a dynamic
function node invokes its function on its bound props. -/
def computeStyles : AbstractStyle → Option CSS
  | AbstractStyle.nullStyle => none
  | AbstractStyle.staticS _ css => some css
  | AbstractStyle.dynamicObj _ css => some css
  | AbstractStyle.mergeS _ l r =>
      mergeComputedStyles (computeStyles l) (computeStyles r)
  | AbstractStyle.dynamicFn _ props fn => some (fn props)

/-- The cache counters record from the source cache module. -/
structure CacheStats where
  calls : Nat
  hits : Nat
  misses : Nat
  bailouts : Nat

/-- The style cache from the source cache module: a string-keyed map
(modelled as an insertion-ordered association list, like a JS `Map`)
plus the counters. -/
structure StyleCache where
  cache : List (String × String)
  stats : CacheStats

/-- `createStyleCache` from the source: empty map, zeroed counters. -/
def createStyleCache : StyleCache :=
  StyleCache.mk [] (CacheStats.mk 0 0 0 0)

/-- `Map.get` on the modelled cache map: the first value stored under the
key, if any. -/
def lookupVal : List (String × String) → String → Option String
  | [], _ => none
  | (k2, v) :: rest, k => if k2 = k then some v else lookupVal rest k

/-- `Map.set` on the modelled cache map: replace in place, else append. -/
def setVal : List (String × String) → String → String → List (String × String)
  | [], k, v => [(k, v)]
  | (k2, v2) :: rest, k, v =>
      if k2 = k then (k, v) :: rest else (k2, v2) :: setVal rest k v

/-- The cache's `get` from the source: increments `calls`; if the stored
value exists and is truthy (a non-empty string) it increments `hits` and
returns it, otherwise it increments `misses` and returns null. -/
def cacheGet (c : StyleCache) (key : String) : Option String × StyleCache :=
  let s := c.stats
  match lookupVal c.cache key with
  | some v =>
      if v = "" then
        (none, StyleCache.mk c.cache
          (CacheStats.mk (s.calls + 1) s.hits (s.misses + 1) s.bailouts))
      else
        (some v, StyleCache.mk c.cache
          (CacheStats.mk (s.calls + 1) (s.hits + 1) s.misses s.bailouts))
  | none =>
      (none, StyleCache.mk c.cache
        (CacheStats.mk (s.calls + 1) s.hits (s.misses + 1) s.bailouts))

/-- The cache's `set` from the source: stores the value, counters untouched. -/
def cacheSet (c : StyleCache) (key val : String) : StyleCache :=
  StyleCache.mk (setVal c.cache key val) c.stats

/-- `useSystem` from the source, the entry point: merge the two nodes and
take the compound key; on the sentinel key return the empty artifact without
touching the cache; on a cache hit return the stored artifact; on a miss
resolve both nodes, materialize through the external materializer `mat`
(the emotion `css` call, an opaque collaborator passed as a parameter),
store the result and return it.  The third component counts materializer
invocations performed by this request. -/
def useSystem (mat : Option CSS → Option CSS → String)
    (root sx : AbstractStyle) (c : StyleCache) : String × StyleCache × Nat :=
  let key := getKey (mergeStyles root sx)
  if key = nullStyleKey then ("", c, 0)
  else
    match cacheGet c key with
    | (some existing, c1) => (existing, c1, 0)
    | (none, c1) =>
        let classNames := mat (computeStyles root) (computeStyles sx)
        (classNames, cacheSet c1 key classNames, 1)

/-- A sequence of entry-point requests against one cache, returning the
final cache and the total number of materializer invocations. -/
def runRequests (mat : Option CSS → Option CSS → String) :
    List (AbstractStyle × AbstractStyle) → StyleCache → StyleCache × Nat
  | [], c => (c, 0)
  | (r, s) :: rest, c =>
      let step := useSystem mat r s c
      let restRun := runRequests mat rest step.2.1
      (restRun.1, step.2.2 + restRun.2)

/-- A sequence of bare cache lookups. -/
def runLookups : List String → StyleCache → StyleCache
  | [], c => c
  | k :: ks, c => runLookups ks (cacheGet c k).2

/-- The keys of the leaves of a style node, left to right. -/
def leafKeys : AbstractStyle → List String
  | AbstractStyle.nullStyle => []
  | AbstractStyle.mergeS _ l r => leafKeys l ++ leafKeys r
  | s => [getKey s]

/-- Space-joined concatenation of a list of keys. -/
def joinKeys : List String → String
  | [] => ""
  | [k] => k
  | k :: rest => k ++ " " ++ joinKeys rest

/-- Whether a node is a merge node. -/
def isMergeNode : AbstractStyle → Bool
  | AbstractStyle.mergeS _ _ _ => true
  | _ => false

/-- The structural invariant of composer-built nodes: every merge node has
non-null children, a non-merge right child, children with distinct keys, and
a key that is the left key, a space, and the right key. -/
def mergeWF : AbstractStyle → Bool
  | AbstractStyle.mergeS k l r =>
      mergeWF l && mergeWF r && !isNullStyle l && !isNullStyle r &&
        !isMergeNode r && (getKey l != getKey r) &&
        (k == getKey l ++ " " ++ getKey r)
  | _ => true

/-- Whether a node is a merge node whose right child is again a merge node. -/
def rightChildIsMerge : AbstractStyle → Bool
  | AbstractStyle.mergeS _ _ r => isMergeNode r
  | _ => false

/-- The nodes built from the composer operations: the null style, static
nodes (under any hash), dynamic style objects, dynamic-function applier
results, and merges of built nodes. -/
inductive Built : AbstractStyle → Prop where
  | nullB : Built AbstractStyle.nullStyle
  | staticB (hashString : String → String) (css : CSS) :
      Built (createStyle hashString css)
  | dynObjB (css : CSS) : Built (dynamicStyle css)
  | dynFnB (keyBase : String) (fn : JsVal → CSS) (props : JsVal) :
      Built (createDynamicStyle keyBase fn props)
  | mergeB {a b : AbstractStyle} : Built a → Built b →
      Built (mergeStyles a b)

/-- A sample flat style object with one field, a: 1. -/
def cssA1 : CSS := Fields.cons "a" (JsVal.num 1) Fields.nil

/-- A sample flat style object with one field, b: 2. -/
def cssB2 : CSS := Fields.cons "b" (JsVal.num 2) Fields.nil

/-- A sample flat style object with one field, c: 3. -/
def cssC3 : CSS := Fields.cons "c" (JsVal.num 3) Fields.nil

/-- A sample flat style object with fields a: 2 and b: 3. -/
def cssA2B3 : CSS :=
  Fields.cons "a" (JsVal.num 2) (Fields.cons "b" (JsVal.num 3) Fields.nil)

/-- A sample dynamic style node for the object with field a: 1. -/
def nodeA : AbstractStyle := dynamicStyle cssA1

/-- A sample dynamic style node for the object with field b: 2. -/
def nodeB : AbstractStyle := dynamicStyle cssB2

/-- A sample dynamic style node for the object with field c: 3. -/
def nodeC : AbstractStyle := dynamicStyle cssC3

/-- A sample style function returning the empty style object. -/
def constCSS : JsVal → CSS := fun _ => Fields.nil

/-- A sample materializer returning a fixed non-empty class name. -/
def sampleMat : Option CSS → Option CSS → String := fun _ _ => "css-1"

/-! Basic lemmas about the composer. -/

theorem isNullStyle_eq_false {s : AbstractStyle} (h : s ≠ AbstractStyle.nullStyle) :
    isNullStyle s = false := by
  cases s <;> simp [isNullStyle] at h ⊢

theorem ne_nullStyle_of_isNullStyle_eq_false {s : AbstractStyle}
    (h : isNullStyle s = false) : s ≠ AbstractStyle.nullStyle := by
  cases s <;> simp [isNullStyle] at h ⊢

theorem mergeStyles_null_left (r : AbstractStyle) :
    mergeStyles AbstractStyle.nullStyle r = r := by
  cases r <;> rfl

theorem mergeStyles_null_right (l : AbstractStyle) :
    mergeStyles l AbstractStyle.nullStyle = l := by
  cases l <;> rfl

theorem mergeStyles_key_eq {l r : AbstractStyle} (hl : l ≠ AbstractStyle.nullStyle)
    (hr : r ≠ AbstractStyle.nullStyle) (h : getKey l = getKey r) :
    mergeStyles l r = l := by
  cases r <;> rw [mergeStyles] <;>
    simp_all [isNullStyle_eq_false hl, isNullStyle]

theorem mergeStyles_merge_right {l : AbstractStyle} (rk : String)
    (r1 r2 : AbstractStyle) (hl : l ≠ AbstractStyle.nullStyle)
    (hne : getKey l ≠ rk) :
    mergeStyles l (AbstractStyle.mergeS rk r1 r2) =
      mergeStyles (mergeStyles l r1) r2 := by
  cases l
  case nullStyle => exact absurd rfl hl
  all_goals rw [mergeStyles]; simp_all [isNullStyle, getKey]

theorem mergeStyles_leaf_right {l r : AbstractStyle} (hl : l ≠ AbstractStyle.nullStyle)
    (hr : r ≠ AbstractStyle.nullStyle)
    (hm : ∀ k a b, r ≠ AbstractStyle.mergeS k a b)
    (hne : getKey l ≠ getKey r) :
    mergeStyles l r =
      AbstractStyle.mergeS (getKey l ++ " " ++ getKey r) l r := by
  cases r <;> rw [mergeStyles] <;>
    simp_all [isNullStyle_eq_false hl, isNullStyle, getKey]

theorem isMergeNode_eq_false_iff {s : AbstractStyle} :
    isMergeNode s = false ↔ ∀ k a b, s ≠ AbstractStyle.mergeS k a b := by
  cases s <;> simp [isMergeNode]

theorem mergeWF_merge {k : String} {l r : AbstractStyle} :
    mergeWF (AbstractStyle.mergeS k l r) = true ↔
      mergeWF l = true ∧ mergeWF r = true ∧ l ≠ AbstractStyle.nullStyle ∧
        r ≠ AbstractStyle.nullStyle ∧ (∀ k2 a b, r ≠ AbstractStyle.mergeS k2 a b) ∧
        getKey l ≠ getKey r ∧ k = getKey l ++ " " ++ getKey r := by
  rw [mergeWF]
  simp only [Bool.and_eq_true, Bool.not_eq_true', bne_iff_ne, ne_eq,
    beq_iff_eq, isMergeNode_eq_false_iff]
  constructor
  · rintro ⟨⟨⟨⟨⟨⟨h1, h2⟩, h3⟩, h4⟩, h5⟩, h6⟩, h7⟩
    exact ⟨h1, h2, ne_nullStyle_of_isNullStyle_eq_false h3,
      ne_nullStyle_of_isNullStyle_eq_false h4, h5, h6, h7⟩
  · rintro ⟨h1, h2, h3, h4, h5, h6, h7⟩
    exact ⟨⟨⟨⟨⟨⟨h1, h2⟩, isNullStyle_eq_false h3⟩, isNullStyle_eq_false h4⟩,
      h5⟩, h6⟩, h7⟩

theorem mergeWF_leaf {s : AbstractStyle} (h : ∀ k a b, s ≠ AbstractStyle.mergeS k a b) :
    mergeWF s = true := by
  cases s <;> first
    | rfl
    | exact absurd rfl (h _ _ _)

/-- Merging preserves the structural invariant of composer-built nodes. -/
theorem mergeStyles_mergeWF : ∀ {b a : AbstractStyle},
    mergeWF a = true → mergeWF b = true → mergeWF (mergeStyles a b) = true := by
  intro b
  induction b with
  | nullStyle =>
      intro a ha _
      rw [mergeStyles_null_right]
      exact ha
  | mergeS rk r1 r2 ih1 ih2 =>
      intro a ha hb
      rcases mergeWF_merge.mp hb with ⟨h1, h2, _, _, _, _, _⟩
      by_cases hna : a = AbstractStyle.nullStyle
      · subst hna
        rw [mergeStyles_null_left]
        exact hb
      · by_cases hk : getKey a = rk
        · rw [mergeStyles_key_eq hna (fun h => AbstractStyle.noConfusion h)
            (show getKey a = getKey (AbstractStyle.mergeS rk r1 r2) from hk)]
          exact ha
        · rw [mergeStyles_merge_right rk r1 r2 hna hk]
          exact ih2 (ih1 ha h1) h2
  | staticS k css =>
      intro a ha hb
      by_cases hna : a = AbstractStyle.nullStyle
      · subst hna
        rw [mergeStyles_null_left]
        exact hb
      · by_cases hk : getKey a = getKey (AbstractStyle.staticS k css)
        · rw [mergeStyles_key_eq hna (fun h => AbstractStyle.noConfusion h) hk]
          exact ha
        · rw [mergeStyles_leaf_right hna (fun h => AbstractStyle.noConfusion h)
            (fun _ _ _ h => AbstractStyle.noConfusion h) hk]
          exact mergeWF_merge.mpr ⟨ha, hb, hna, fun h => AbstractStyle.noConfusion h,
            fun _ _ _ h => AbstractStyle.noConfusion h, hk, rfl⟩
  | dynamicObj k css =>
      intro a ha hb
      by_cases hna : a = AbstractStyle.nullStyle
      · subst hna
        rw [mergeStyles_null_left]
        exact hb
      · by_cases hk : getKey a = getKey (AbstractStyle.dynamicObj k css)
        · rw [mergeStyles_key_eq hna (fun h => AbstractStyle.noConfusion h) hk]
          exact ha
        · rw [mergeStyles_leaf_right hna (fun h => AbstractStyle.noConfusion h)
            (fun _ _ _ h => AbstractStyle.noConfusion h) hk]
          exact mergeWF_merge.mpr ⟨ha, hb, hna, fun h => AbstractStyle.noConfusion h,
            fun _ _ _ h => AbstractStyle.noConfusion h, hk, rfl⟩
  | dynamicFn k props fn =>
      intro a ha hb
      by_cases hna : a = AbstractStyle.nullStyle
      · subst hna
        rw [mergeStyles_null_left]
        exact hb
      · by_cases hk : getKey a = getKey (AbstractStyle.dynamicFn k props fn)
        · rw [mergeStyles_key_eq hna (fun h => AbstractStyle.noConfusion h) hk]
          exact ha
        · rw [mergeStyles_leaf_right hna (fun h => AbstractStyle.noConfusion h)
            (fun _ _ _ h => AbstractStyle.noConfusion h) hk]
          exact mergeWF_merge.mpr ⟨ha, hb, hna, fun h => AbstractStyle.noConfusion h,
            fun _ _ _ h => AbstractStyle.noConfusion h, hk, rfl⟩

/-- Every node built from the composer operations satisfies the structural
invariant. -/
theorem Built.mergeWF_of : ∀ {s : AbstractStyle}, Built s → mergeWF s = true := by
  intro s h
  induction h with
  | nullB => rfl
  | staticB hashString css => rfl
  | dynObjB css => rfl
  | dynFnB keyBase fn props => rfl
  | mergeB _ _ iha ihb => exact mergeStyles_mergeWF iha ihb

/-- Merging two nodes where the left one is not null never yields null. -/
theorem mergeStyles_ne_null : ∀ {b a : AbstractStyle},
    a ≠ AbstractStyle.nullStyle → mergeStyles a b ≠ AbstractStyle.nullStyle := by
  intro b
  induction b with
  | nullStyle =>
      intro a ha
      rw [mergeStyles_null_right]
      exact ha
  | mergeS rk r1 r2 ih1 ih2 =>
      intro a ha
      by_cases hk : getKey a = rk
      · rw [mergeStyles_key_eq ha (fun h => AbstractStyle.noConfusion h)
          (show getKey a = getKey (AbstractStyle.mergeS rk r1 r2) from hk)]
        exact ha
      · rw [mergeStyles_merge_right rk r1 r2 ha hk]
        exact ih2 (ih1 ha)
  | staticS k css =>
      intro a ha
      by_cases hk : getKey a = getKey (AbstractStyle.staticS k css)
      · rw [mergeStyles_key_eq ha (fun h => AbstractStyle.noConfusion h) hk]
        exact ha
      · rw [mergeStyles_leaf_right ha (fun h => AbstractStyle.noConfusion h)
          (fun _ _ _ h => AbstractStyle.noConfusion h) hk]
        exact fun h => AbstractStyle.noConfusion h
  | dynamicObj k css =>
      intro a ha
      by_cases hk : getKey a = getKey (AbstractStyle.dynamicObj k css)
      · rw [mergeStyles_key_eq ha (fun h => AbstractStyle.noConfusion h) hk]
        exact ha
      · rw [mergeStyles_leaf_right ha (fun h => AbstractStyle.noConfusion h)
          (fun _ _ _ h => AbstractStyle.noConfusion h) hk]
        exact fun h => AbstractStyle.noConfusion h
  | dynamicFn k props fn =>
      intro a ha
      by_cases hk : getKey a = getKey (AbstractStyle.dynamicFn k props fn)
      · rw [mergeStyles_key_eq ha (fun h => AbstractStyle.noConfusion h) hk]
        exact ha
      · rw [mergeStyles_leaf_right ha (fun h => AbstractStyle.noConfusion h)
          (fun _ _ _ h => AbstractStyle.noConfusion h) hk]
        exact fun h => AbstractStyle.noConfusion h

/-! Lemmas about space-joined key lists. -/

theorem joinKeys_cons (x : String) {l : List String} (hl : l ≠ []) :
    joinKeys (x :: l) = x ++ " " ++ joinKeys l := by
  cases l with
  | nil => exact absurd rfl hl
  | cons y ys => rfl

theorem joinKeys_append {a : List String} (b : List String) (ha : a ≠ [])
    (hb : b ≠ []) :
    joinKeys (a ++ b) = joinKeys a ++ " " ++ joinKeys b := by
  induction a with
  | nil => exact absurd rfl ha
  | cons x xs ih =>
      cases xs with
      | nil =>
          rw [List.singleton_append, joinKeys_cons x hb]
          rfl
      | cons x2 xs2 =>
          rw [List.cons_append, joinKeys_cons x (by simp),
            joinKeys_cons x (by simp), ih (by simp)]
          simp [String.append_assoc]

theorem space_mem_data_append (x z : String) :
    spaceChar ∈ (x ++ " " ++ z).data := by
  rw [String.data_append, String.data_append]
  refine List.mem_append_left _ (List.mem_append_right _ ?_)
  decide

theorem splitAtSpace : ∀ (xs : List Char), ∀ {ys us vs : List Char},
    spaceChar ∉ xs → spaceChar ∉ ys →
    xs ++ spaceChar :: us = ys ++ spaceChar :: vs → xs = ys ∧ us = vs := by
  intro xs
  induction xs with
  | nil =>
      intro ys us vs _ hy h
      cases ys with
      | nil =>
          simp only [List.nil_append, List.cons.injEq] at h
          exact ⟨rfl, h.2⟩
      | cons c cs =>
          simp only [List.nil_append, List.cons_append, List.cons.injEq] at h
          exact absurd (h.1 ▸ List.mem_cons_self c cs) hy
  | cons c cs ih =>
      intro ys us vs hx hy h
      cases ys with
      | nil =>
          simp only [List.cons_append, List.nil_append, List.cons.injEq] at h
          exact absurd (h.1.symm ▸ List.mem_cons_self c cs) hx
      | cons d ds =>
          simp only [List.cons_append, List.cons.injEq] at h
          obtain ⟨rfl, h2⟩ := h
          have hx2 : spaceChar ∉ cs := fun hm => hx (List.mem_cons_of_mem _ hm)
          have hy2 : spaceChar ∉ ds := fun hm => hy (List.mem_cons_of_mem _ hm)
          obtain ⟨rfl, h3⟩ := ih hx2 hy2 h2
          exact ⟨rfl, h3⟩

theorem data_join_pair (x z : String) :
    (x ++ " " ++ z).data = x.data ++ spaceChar :: z.data := by
  rw [String.data_append, String.data_append]
  have : (" ").data = [spaceChar] := by decide
  rw [this, List.append_assoc, List.singleton_append]

theorem joinKeys_inj : ∀ (a : List String), ∀ {b : List String},
    (∀ k ∈ a, spaceChar ∉ k.data) → (∀ k ∈ b, spaceChar ∉ k.data) →
    a ≠ [] → b ≠ [] → joinKeys a = joinKeys b → a = b := by
  intro a
  induction a with
  | nil => intro b _ _ ha _ _; exact absurd rfl ha
  | cons x xs ih =>
      intro b hsa hsb _ hb h
      cases b with
      | nil => exact absurd rfl hb
      | cons y ys =>
          cases xs with
          | nil =>
              cases ys with
              | nil =>
                  have : x = y := h
                  rw [this]
              | cons y2 ys2 =>
                  rw [joinKeys_cons y (by simp)] at h
                  have hx : spaceChar ∉ x.data := hsa x (List.mem_cons_self _ _)
                  have : joinKeys [x] = x := rfl
                  rw [this] at h
                  exact absurd (h ▸ space_mem_data_append y (joinKeys (y2 :: ys2))) hx
          | cons x2 xs2 =>
              cases ys with
              | nil =>
                  rw [joinKeys_cons x (by simp)] at h
                  have hy : spaceChar ∉ y.data := hsb y (List.mem_cons_self _ _)
                  have : joinKeys [y] = y := rfl
                  rw [this] at h
                  exact absurd (h ▸ space_mem_data_append x (joinKeys (x2 :: xs2))) hy
              | cons y2 ys2 =>
                  rw [joinKeys_cons x (by simp), joinKeys_cons y (by simp)] at h
                  have hdata := congrArg String.data h
                  rw [data_join_pair, data_join_pair] at hdata
                  have hx : spaceChar ∉ x.data := hsa x (List.mem_cons_self _ _)
                  have hy : spaceChar ∉ y.data := hsb y (List.mem_cons_self _ _)
                  obtain ⟨h1, h2⟩ := splitAtSpace x.data hx hy hdata
                  have hxy : x = y := String.ext h1
                  have htails : joinKeys (x2 :: xs2) = joinKeys (y2 :: ys2) :=
                    String.ext h2
                  have hrec := ih (fun k hk => hsa k (List.mem_cons_of_mem _ hk))
                    (fun k hk => hsb k (List.mem_cons_of_mem _ hk))
                    (by simp) (by simp) htails
                  rw [hxy, hrec]

/-- On a well-formed non-null node, the key is the space-joined list of the
keys of its leaves, and that list is non-empty. -/
theorem mergeWF_getKey : ∀ {s : AbstractStyle}, mergeWF s = true →
    s ≠ AbstractStyle.nullStyle →
    getKey s = joinKeys (leafKeys s) ∧ leafKeys s ≠ [] := by
  intro s
  induction s with
  | nullStyle => intro _ hn; exact absurd rfl hn
  | mergeS k l r ihl ihr =>
      intro hwf _
      rcases mergeWF_merge.mp hwf with ⟨h1, h2, hn1, hn2, _, _, hkey⟩
      obtain ⟨hl, hl2⟩ := ihl h1 hn1
      obtain ⟨hr, hr2⟩ := ihr h2 hn2
      constructor
      · show k = joinKeys (leafKeys l ++ leafKeys r)
        rw [joinKeys_append _ hl2 hr2, hkey, hl, hr]
      · show leafKeys l ++ leafKeys r ≠ []
        simp [hl2]
  | staticS k css => intro _ _; exact ⟨rfl, by simp [leafKeys]⟩
  | dynamicObj k css => intro _ _; exact ⟨rfl, by simp [leafKeys]⟩
  | dynamicFn k props fn => intro _ _; exact ⟨rfl, by simp [leafKeys]⟩

/-- Under distinct space-free leaf keys, two well-formed non-null nodes have
distinct keys. -/
theorem getKey_ne_of_nodup {a b : AbstractStyle} (ha : mergeWF a = true)
    (hb : mergeWF b = true) (hna : a ≠ AbstractStyle.nullStyle)
    (hnb : b ≠ AbstractStyle.nullStyle)
    (hsf : ∀ k ∈ leafKeys a ++ leafKeys b, spaceChar ∉ k.data)
    (hnd : (leafKeys a ++ leafKeys b).Nodup) : getKey a ≠ getKey b := by
  intro heq
  obtain ⟨hka, hea⟩ := mergeWF_getKey ha hna
  obtain ⟨hkb, heb⟩ := mergeWF_getKey hb hnb
  have hj : joinKeys (leafKeys a) = joinKeys (leafKeys b) := by
    rw [← hka, ← hkb, heq]
  have heq2 := joinKeys_inj (leafKeys a)
    (fun k hk => hsf k (List.mem_append_left _ hk))
    (fun k hk => hsf k (List.mem_append_right _ hk)) hea heb hj
  have hdisj := List.disjoint_of_nodup_append hnd
  cases hcase : leafKeys a with
  | nil => exact hea hcase
  | cons x rest =>
      have hx1 : x ∈ leafKeys a := hcase ▸ List.mem_cons_self x rest
      have hx2 : x ∈ leafKeys b := heq2 ▸ hx1
      exact hdisj hx1 hx2

theorem mergeStyles_leafKeys_leaf {a b : AbstractStyle}
    (hna : a ≠ AbstractStyle.nullStyle) (hnb : b ≠ AbstractStyle.nullStyle)
    (hm : ∀ k x y, b ≠ AbstractStyle.mergeS k x y)
    (hne : getKey a ≠ getKey b) :
    leafKeys (mergeStyles a b) = leafKeys a ++ leafKeys b := by
  rw [mergeStyles_leaf_right hna hnb hm hne]
  rfl

/-- Merging two well-formed nodes whose combined leaf keys are distinct and
space-free concatenates their leaf-key lists. -/
theorem mergeStyles_leafKeys : ∀ {b a : AbstractStyle},
    mergeWF a = true → mergeWF b = true →
    a ≠ AbstractStyle.nullStyle → b ≠ AbstractStyle.nullStyle →
    (∀ k ∈ leafKeys a ++ leafKeys b, spaceChar ∉ k.data) →
    (leafKeys a ++ leafKeys b).Nodup →
    leafKeys (mergeStyles a b) = leafKeys a ++ leafKeys b := by
  intro b
  induction b with
  | nullStyle => intro a _ _ _ hnb _ _; exact absurd rfl hnb
  | mergeS rk r1 r2 ih1 ih2 =>
      intro a hwa hwb hna hnb hsf hnd
      rcases mergeWF_merge.mp hwb with ⟨h1, h2, hn1, hn2, _, _, _⟩
      have hk : getKey a ≠ rk :=
        getKey_ne_of_nodup hwa hwb hna hnb hsf hnd
      rw [mergeStyles_merge_right rk r1 r2 hna hk]
      have hlb : leafKeys (AbstractStyle.mergeS rk r1 r2) =
          leafKeys r1 ++ leafKeys r2 := rfl
      rw [hlb] at hsf hnd
      have hsf1 : ∀ k ∈ leafKeys a ++ leafKeys r1, spaceChar ∉ k.data := by
        intro k hk2
        rcases List.mem_append.mp hk2 with h | h
        · exact hsf k (List.mem_append_left _ h)
        · exact hsf k (List.mem_append_right _ (List.mem_append_left _ h))
      have hnd1 : (leafKeys a ++ leafKeys r1).Nodup := by
        refine List.Nodup.sublist ?_ hnd
        exact (List.sublist_append_left _ _).append_left _
      have hstep1 := ih1 hwa h1 hna hn1 hsf1 hnd1
      have hwa2 : mergeWF (mergeStyles a r1) = true := mergeStyles_mergeWF hwa h1
      have hna2 : mergeStyles a r1 ≠ AbstractStyle.nullStyle :=
        mergeStyles_ne_null hna
      have hsf2 : ∀ k ∈ leafKeys (mergeStyles a r1) ++ leafKeys r2,
          spaceChar ∉ k.data := by
        intro k hk2
        rw [hstep1, List.append_assoc] at hk2
        exact hsf k hk2
      have hnd2 : (leafKeys (mergeStyles a r1) ++ leafKeys r2).Nodup := by
        rw [hstep1, List.append_assoc]
        exact hnd
      have hstep2 := ih2 hwa2 h2 hna2 hn2 hsf2 hnd2
      rw [hstep2, hstep1, List.append_assoc, hlb]
  | staticS k css =>
      intro a hwa hwb hna hnb hsf hnd
      exact mergeStyles_leafKeys_leaf hna hnb
        (fun _ _ _ h => AbstractStyle.noConfusion h)
        (getKey_ne_of_nodup hwa hwb hna hnb hsf hnd)
  | dynamicObj k css =>
      intro a hwa hwb hna hnb hsf hnd
      exact mergeStyles_leafKeys_leaf hna hnb
        (fun _ _ _ h => AbstractStyle.noConfusion h)
        (getKey_ne_of_nodup hwa hwb hna hnb hsf hnd)
  | dynamicFn k props fn =>
      intro a hwa hwb hna hnb hsf hnd
      exact mergeStyles_leafKeys_leaf hna hnb
        (fun _ _ _ h => AbstractStyle.noConfusion h)
        (getKey_ne_of_nodup hwa hwb hna hnb hsf hnd)

/-! Lemmas about the style cache and the entry point. -/

theorem lookupVal_setVal_self (m : List (String × String)) (k v : String) :
    lookupVal (setVal m k v) k = some v := by
  induction m with
  | nil => simp [setVal, lookupVal]
  | cons p rest ih =>
      obtain ⟨k2, v2⟩ := p
      by_cases h : k2 = k
      · subst h
        simp [setVal, lookupVal]
      · simp [setVal, lookupVal, h, ih]

theorem cacheGet_hit {c : StyleCache} {k v : String}
    (h : lookupVal c.cache k = some v) (hv : v ≠ "") :
    cacheGet c k = (some v, StyleCache.mk c.cache
      (CacheStats.mk (c.stats.calls + 1) (c.stats.hits + 1) c.stats.misses
        c.stats.bailouts)) := by
  rw [cacheGet, h]
  simp [hv]

theorem cacheGet_miss {c : StyleCache} {k : String}
    (h : lookupVal c.cache k = none) :
    cacheGet c k = (none, StyleCache.mk c.cache
      (CacheStats.mk (c.stats.calls + 1) c.stats.hits (c.stats.misses + 1)
        c.stats.bailouts)) := by
  rw [cacheGet, h]

theorem cacheGet_empty_artifact {c : StyleCache} {k : String}
    (h : lookupVal c.cache k = some "") :
    cacheGet c k = (none, StyleCache.mk c.cache
      (CacheStats.mk (c.stats.calls + 1) c.stats.hits (c.stats.misses + 1)
        c.stats.bailouts)) := by
  rw [cacheGet, h]
  simp

theorem useSystem_sentinel (mat : Option CSS → Option CSS → String)
    {root sx : AbstractStyle} (c : StyleCache)
    (h : getKey (mergeStyles root sx) = nullStyleKey) :
    useSystem mat root sx c = ("", c, 0) := by
  rw [useSystem]
  simp [h]

theorem useSystem_hit (mat : Option CSS → Option CSS → String)
    {root sx : AbstractStyle} {c : StyleCache} {v : String}
    (hk : getKey (mergeStyles root sx) ≠ nullStyleKey)
    (h : lookupVal c.cache (getKey (mergeStyles root sx)) = some v)
    (hv : v ≠ "") :
    useSystem mat root sx c = (v, StyleCache.mk c.cache
      (CacheStats.mk (c.stats.calls + 1) (c.stats.hits + 1) c.stats.misses
        c.stats.bailouts), 0) := by
  rw [useSystem]
  simp only [hk, if_false, cacheGet_hit h hv]

theorem useSystem_miss (mat : Option CSS → Option CSS → String)
    (root sx : AbstractStyle) (c : StyleCache)
    (hk : getKey (mergeStyles root sx) ≠ nullStyleKey)
    (h : lookupVal c.cache (getKey (mergeStyles root sx)) = none) :
    useSystem mat root sx c =
      (mat (computeStyles root) (computeStyles sx),
        StyleCache.mk
          (setVal c.cache (getKey (mergeStyles root sx))
            (mat (computeStyles root) (computeStyles sx)))
          (CacheStats.mk (c.stats.calls + 1) c.stats.hits (c.stats.misses + 1)
            c.stats.bailouts), 1) := by
  rw [useSystem]
  simp only [hk, if_false, cacheGet_miss h]
  rfl

/-- Once the key is present with a non-empty artifact, every further request
for that key is a hit: the map is unchanged, `calls` and `hits` grow by the
number of requests, and the materializer is never invoked. -/
theorem runRequests_allHits (mat : Option CSS → Option CSS → String)
    (k v : String) (hk : k ≠ nullStyleKey) (hv : v ≠ "") :
    ∀ (reqs : List (AbstractStyle × AbstractStyle)),
    (∀ p ∈ reqs, getKey (mergeStyles p.1 p.2) = k) →
    ∀ (c : StyleCache), lookupVal c.cache k = some v →
    runRequests mat reqs c =
      (StyleCache.mk c.cache
        (CacheStats.mk (c.stats.calls + reqs.length)
          (c.stats.hits + reqs.length) c.stats.misses c.stats.bailouts), 0) := by
  intro reqs
  induction reqs with
  | nil => intro _ c _; rfl
  | cons p rest ih =>
      intro hall c hc
      obtain ⟨r, s⟩ := p
      have hkey : getKey (mergeStyles r s) = k :=
        hall (r, s) (List.mem_cons_self _ _)
      have hstep : useSystem mat r s c = (v, StyleCache.mk c.cache
          (CacheStats.mk (c.stats.calls + 1) (c.stats.hits + 1) c.stats.misses
            c.stats.bailouts), 0) :=
        useSystem_hit mat (hkey ▸ hk) (hkey ▸ hc) hv
      rw [runRequests, hstep]
      have hrest := ih (fun q hq => hall q (List.mem_cons_of_mem _ hq))
        (StyleCache.mk c.cache
          (CacheStats.mk (c.stats.calls + 1) (c.stats.hits + 1) c.stats.misses
            c.stats.bailouts)) hc
      rw [hrest]
      have h1 : c.stats.calls + 1 + rest.length = c.stats.calls + (rest.length + 1) := by
        omega
      have h2 : c.stats.hits + 1 + rest.length = c.stats.hits + (rest.length + 1) := by
        omega
      simp only [List.length_cons, h1, h2]

/-! Claim theorems. -/

/-- C1, amended.  The claim as stated fails (see the counterexample): the
key-equality short-circuit of the merge operation can collapse one side of
the equation but not the other, and leaf keys that contain a space can make
a composite key collide with a leaf key.  The amended claim: for all nodes
A, B, C built from the composer operations, if the combined list of their
leaf keys has no duplicates and no leaf key contains a space character, then
the composition key of merge(merge(A,B),C) equals the composition key of
merge(A,merge(B,C)). -/
theorem c1_merge_key_assoc (A B C : AbstractStyle)
    (hA : Built A) (hB : Built B) (hC : Built C)
    (hsf : ∀ k ∈ leafKeys A ++ leafKeys B ++ leafKeys C, spaceChar ∉ k.data)
    (hnd : (leafKeys A ++ leafKeys B ++ leafKeys C).Nodup) :
    getKey (mergeStyles (mergeStyles A B) C) =
      getKey (mergeStyles A (mergeStyles B C)) := by
  by_cases hnA : A = AbstractStyle.nullStyle
  · subst hnA
    rw [mergeStyles_null_left, mergeStyles_null_left]
  by_cases hnB : B = AbstractStyle.nullStyle
  · subst hnB
    rw [mergeStyles_null_right, mergeStyles_null_left]
  by_cases hnC : C = AbstractStyle.nullStyle
  · subst hnC
    rw [mergeStyles_null_right, mergeStyles_null_right]
  have hwA := Built.mergeWF_of hA
  have hwB := Built.mergeWF_of hB
  have hwC := Built.mergeWF_of hC
  have hsfAB : ∀ k ∈ leafKeys A ++ leafKeys B, spaceChar ∉ k.data :=
    fun k hk => hsf k (List.mem_append_left _ hk)
  have hndAB : (leafKeys A ++ leafKeys B).Nodup :=
    List.Nodup.sublist (List.sublist_append_left _ _) hnd
  have hlAB := mergeStyles_leafKeys hwA hwB hnA hnB hsfAB hndAB
  have hwAB := mergeStyles_mergeWF hwA hwB
  have hnAB : mergeStyles A B ≠ AbstractStyle.nullStyle := mergeStyles_ne_null hnA
  have hsfBC : ∀ k ∈ leafKeys B ++ leafKeys C, spaceChar ∉ k.data := by
    intro k hk
    rcases List.mem_append.mp hk with h | h
    · exact hsf k (List.mem_append_left _ (List.mem_append_right _ h))
    · exact hsf k (List.mem_append_right _ h)
  have hndBC : (leafKeys B ++ leafKeys C).Nodup := by
    rw [List.append_assoc] at hnd
    exact List.Nodup.of_append_right hnd
  have hlBC := mergeStyles_leafKeys hwB hwC hnB hnC hsfBC hndBC
  have hwBC := mergeStyles_mergeWF hwB hwC
  have hnBC : mergeStyles B C ≠ AbstractStyle.nullStyle := mergeStyles_ne_null hnB
  have hsfL : ∀ k ∈ leafKeys (mergeStyles A B) ++ leafKeys C,
      spaceChar ∉ k.data := by
    intro k hk
    rw [hlAB] at hk
    exact hsf k hk
  have hndL : (leafKeys (mergeStyles A B) ++ leafKeys C).Nodup := by
    rw [hlAB]
    exact hnd
  have hlL := mergeStyles_leafKeys hwAB hwC hnAB hnC hsfL hndL
  have hwL := mergeStyles_mergeWF hwAB hwC
  have hnL : mergeStyles (mergeStyles A B) C ≠ AbstractStyle.nullStyle :=
    mergeStyles_ne_null hnAB
  have hsfR : ∀ k ∈ leafKeys A ++ leafKeys (mergeStyles B C),
      spaceChar ∉ k.data := by
    intro k hk
    rw [hlBC] at hk
    rw [List.append_assoc] at hsf
    exact hsf k hk
  have hndR : (leafKeys A ++ leafKeys (mergeStyles B C)).Nodup := by
    rw [hlBC]
    rw [List.append_assoc] at hnd
    exact hnd
  have hlR := mergeStyles_leafKeys hwA hwBC hnA hnBC hsfR hndR
  have hwR := mergeStyles_mergeWF hwA hwBC
  have hnR : mergeStyles A (mergeStyles B C) ≠ AbstractStyle.nullStyle :=
    mergeStyles_ne_null hnA
  have hkL := (mergeWF_getKey hwL hnL).1
  have hkR := (mergeWF_getKey hwR hnR).1
  rw [hkL, hkR, hlL, hlR, hlAB, hlBC, List.append_assoc]

/-- C1, counterexample to the claim as stated.  First instance: with
A = dynamicStyle a:1 and B = C = dynamicStyle b:2, the left association
collapses nothing while the right association collapses merge(B,C) to B, so
the keys differ.  Second instance: dynamic-function applier nodes whose
string props make one leaf key equal to a composite key also break the
equation even though all leaf keys are distinct. -/
theorem c1_merge_key_assoc_counterexample :
    getKey (mergeStyles (mergeStyles nodeA nodeB) nodeB) ≠
      getKey (mergeStyles nodeA (mergeStyles nodeB nodeB)) ∧
    getKey (mergeStyles
        (mergeStyles (createDynamicStyle "f" constCSS (JsVal.str "a"))
          (createDynamicStyle "f" constCSS (JsVal.str "p")))
        (mergeStyles (createDynamicStyle "f" constCSS (JsVal.str "q"))
          (createDynamicStyle "f" constCSS (JsVal.str "p) f(q")))) ≠
      getKey (mergeStyles (createDynamicStyle "f" constCSS (JsVal.str "a"))
        (mergeStyles (createDynamicStyle "f" constCSS (JsVal.str "p"))
          (mergeStyles (createDynamicStyle "f" constCSS (JsVal.str "q"))
            (createDynamicStyle "f" constCSS (JsVal.str "p) f(q"))))) := by
  constructor <;> decide

/-- C1, witness: the amended theorem applied to the three sample dynamic
style nodes, whose leaf keys are distinct and space-free. -/
theorem c1_merge_key_assoc_witness :
    getKey (mergeStyles (mergeStyles nodeA nodeB) nodeC) =
      getKey (mergeStyles nodeA (mergeStyles nodeB nodeC)) :=
  c1_merge_key_assoc nodeA nodeB nodeC (Built.dynObjB cssA1)
    (Built.dynObjB cssB2) (Built.dynObjB cssC3) (by decide) (by decide)

/-- C2, confirmed.  For a materializer that always returns a non-empty class
name (as the external emotion materializer does), a session starting with no
entry for the key and zeroed counters, and any non-empty sequence of
requests whose merged nodes all share the same non-sentinel key: the
materializer runs exactly once, and afterwards `hits` is N-1 and `misses`
is 1. -/
theorem c2_cache_at_most_once (mat : Option CSS → Option CSS → String)
    (hmat : ∀ x y, mat x y ≠ "") (k : String) (hk : k ≠ nullStyleKey)
    (reqs : List (AbstractStyle × AbstractStyle)) (hne : reqs ≠ [])
    (hall : ∀ p ∈ reqs, getKey (mergeStyles p.1 p.2) = k)
    (c0 : StyleCache) (hc0 : lookupVal c0.cache k = none)
    (hs0 : c0.stats = CacheStats.mk 0 0 0 0) :
    (runRequests mat reqs c0).2 = 1 ∧
    (runRequests mat reqs c0).1.stats.hits = reqs.length - 1 ∧
    (runRequests mat reqs c0).1.stats.misses = 1 := by
  obtain ⟨m0, st0⟩ := c0
  simp only at hs0 hc0
  subst hs0
  cases reqs with
  | nil => exact absurd rfl hne
  | cons p rest =>
      obtain ⟨r, s⟩ := p
      have hkey : getKey (mergeStyles r s) = k := hall _ (List.mem_cons_self _ _)
      have hmiss := useSystem_miss mat r s
        (StyleCache.mk m0 (CacheStats.mk 0 0 0 0))
        (by rw [hkey]; exact hk) (by rw [hkey]; exact hc0)
      rw [hkey] at hmiss
      have hv := hmat (computeStyles r) (computeStyles s)
      have hstore : lookupVal
          (setVal m0 k (mat (computeStyles r) (computeStyles s))) k =
          some (mat (computeStyles r) (computeStyles s)) :=
        lookupVal_setVal_self m0 k
          (mat (computeStyles r) (computeStyles s))
      have hrest := runRequests_allHits mat k
        (mat (computeStyles r) (computeStyles s)) hk hv rest
        (fun q hq => hall q (List.mem_cons_of_mem _ hq))
        (StyleCache.mk
          (setVal m0 k (mat (computeStyles r) (computeStyles s)))
          (CacheStats.mk 1 0 1 0)) hstore
      rw [runRequests, hmiss, hrest]
      simp only [List.length_cons]
      refine ⟨by simp, by simp, by simp⟩

/-- C2, witness: two requests for nodes merging to the same key, against a
fresh cache and the sample materializer; one materialization, one hit, one
miss. -/
theorem c2_cache_at_most_once_witness :
    (runRequests sampleMat [(AbstractStyle.nullStyle, nodeA),
        (AbstractStyle.nullStyle, nodeA)] createStyleCache).2 = 1 ∧
    (runRequests sampleMat [(AbstractStyle.nullStyle, nodeA),
        (AbstractStyle.nullStyle, nodeA)] createStyleCache).1.stats.hits =
      ([(AbstractStyle.nullStyle, nodeA),
        (AbstractStyle.nullStyle, nodeA)] :
          List (AbstractStyle × AbstractStyle)).length - 1 ∧
    (runRequests sampleMat [(AbstractStyle.nullStyle, nodeA),
        (AbstractStyle.nullStyle, nodeA)] createStyleCache).1.stats.misses = 1 :=
  c2_cache_at_most_once sampleMat
    (fun _ _ => show ("css-1" : String) ≠ "" by decide)
    (getKey (mergeStyles AbstractStyle.nullStyle nodeA)) (by decide)
    [(AbstractStyle.nullStyle, nodeA), (AbstractStyle.nullStyle, nodeA)]
    (List.cons_ne_nil _ _)
    (by
      intro p hp
      rcases List.mem_cons.mp hp with h | h
      · rw [h]
      · rw [List.mem_singleton.mp h])
    createStyleCache rfl rfl

/-- C3, amended.  The claim as stated fails when the key of `left` equals
the key of the right-hand merge node: the key-equality short-circuit then
returns `left` instead of re-associating (see the counterexample).  Amended:
(1) whenever `right` is a well-formed merge node with children r1 and r2 and
`key(left) ≠ key(right)`, merge(left, right) equals merge(merge(left, r1),
r2); and (2) for all composer-built nodes, the node returned by the merge
operation never has a merge node as its right child. -/
theorem c3_left_leaning :
    (∀ (left r1 r2 : AbstractStyle) (rk : String),
        mergeWF (AbstractStyle.mergeS rk r1 r2) = true →
        getKey left ≠ rk →
        mergeStyles left (AbstractStyle.mergeS rk r1 r2) =
          mergeStyles (mergeStyles left r1) r2) ∧
    (∀ a b : AbstractStyle, Built a → Built b →
        rightChildIsMerge (mergeStyles a b) = false) := by
  constructor
  · intro left r1 r2 rk hwr hne
    by_cases hnl : left = AbstractStyle.nullStyle
    · subst hnl
      rw [mergeStyles_null_left, mergeStyles_null_left]
      rcases mergeWF_merge.mp hwr with ⟨_, _, hn1, hn2, hm2, hne12, hkey⟩
      rw [mergeStyles_leaf_right hn1 hn2 hm2 hne12, hkey]
    · rw [mergeStyles_merge_right rk r1 r2 hnl hne]
  · intro a b ha hb
    have hw := mergeStyles_mergeWF (Built.mergeWF_of ha) (Built.mergeWF_of hb)
    cases hcase : mergeStyles a b with
    | mergeS k l r =>
        rw [hcase] at hw
        rcases mergeWF_merge.mp hw with ⟨_, _, _, _, hm, _, _⟩
        show isMergeNode r = false
        exact isMergeNode_eq_false_iff.mpr hm
    | nullStyle => rfl
    | staticS k css => rfl
    | dynamicObj k css => rfl
    | dynamicFn k props fn => rfl

/-- C3, counterexample to the claim as stated: the node merge(A,B) is a
merge node with children A and B, yet merging it with an equal-keyed copy of
itself returns it unchanged instead of building
merge(merge(merge(A,B),A),B) — the two sides do not even share a key. -/
theorem c3_left_leaning_counterexample :
    mergeStyles nodeA nodeB =
      AbstractStyle.mergeS (getKey (mergeStyles nodeA nodeB)) nodeA nodeB ∧
    mergeStyles (mergeStyles nodeA nodeB) (mergeStyles nodeA nodeB) ≠
      mergeStyles (mergeStyles (mergeStyles nodeA nodeB) nodeA) nodeB := by
  refine ⟨rfl, ?_⟩
  intro h
  have h2 := congrArg getKey h
  revert h2
  decide

/-- C3, witness: part (1) applied to the sample node C and the merge node
built from the sample nodes A and B, and part (2) applied to A and B. -/
theorem c3_left_leaning_witness :
    mergeStyles nodeC
        (AbstractStyle.mergeS (getKey (mergeStyles nodeA nodeB)) nodeA nodeB) =
      mergeStyles (mergeStyles nodeC nodeA) nodeB ∧
    rightChildIsMerge (mergeStyles nodeA nodeB) = false :=
  ⟨c3_left_leaning.1 nodeC nodeA nodeB (getKey (mergeStyles nodeA nodeB))
      (by decide) (by decide),
    c3_left_leaning.2 nodeA nodeB (Built.dynObjB cssA1) (Built.dynObjB cssB2)⟩

theorem cacheGet_stats_step (c : StyleCache) (key : String) :
    (cacheGet c key).2.stats.calls = c.stats.calls + 1 ∧
    (cacheGet c key).2.stats.bailouts = c.stats.bailouts ∧
    (((cacheGet c key).2.stats.hits = c.stats.hits + 1 ∧
        (cacheGet c key).2.stats.misses = c.stats.misses) ∨
      ((cacheGet c key).2.stats.hits = c.stats.hits ∧
        (cacheGet c key).2.stats.misses = c.stats.misses + 1)) := by
  cases h : lookupVal c.cache key with
  | none =>
      rw [cacheGet_miss h]
      exact ⟨rfl, rfl, Or.inr ⟨rfl, rfl⟩⟩
  | some v =>
      by_cases hv : v = ""
      · subst hv
        rw [cacheGet_empty_artifact h]
        exact ⟨rfl, rfl, Or.inr ⟨rfl, rfl⟩⟩
      · rw [cacheGet_hit h hv]
        exact ⟨rfl, rfl, Or.inl ⟨rfl, rfl⟩⟩

theorem runLookups_invariant : ∀ (keys : List String) (c : StyleCache),
    c.stats.calls = c.stats.hits + c.stats.misses →
    (runLookups keys c).stats.calls =
      (runLookups keys c).stats.hits + (runLookups keys c).stats.misses := by
  intro keys
  induction keys with
  | nil => intro c h; exact h
  | cons k ks ih =>
      intro c h
      rw [runLookups]
      apply ih
      obtain ⟨h1, _, h3⟩ := cacheGet_stats_step c k
      rcases h3 with ⟨ha, hb⟩ | ⟨ha, hb⟩ <;> omega

/-- C4, amended.  The claim as stated fails when the key is present but its
stored artifact is the empty string: the lookup's truthiness test then takes
the miss branch (see the counterexample).  Amended: every lookup increments
`calls` by one and exactly one of `hits` and `misses`; a key present with a
non-empty artifact is a hit returning the stored artifact; a key that is
absent or stored with the empty artifact is a miss returning not-found; and
`calls = hits + misses` is preserved by any sequence of lookups. -/
theorem c4_lookup_bookkeeping :
    (∀ (c : StyleCache) (key : String),
        (cacheGet c key).2.stats.calls = c.stats.calls + 1 ∧
        (((cacheGet c key).2.stats.hits = c.stats.hits + 1 ∧
            (cacheGet c key).2.stats.misses = c.stats.misses) ∨
          ((cacheGet c key).2.stats.hits = c.stats.hits ∧
            (cacheGet c key).2.stats.misses = c.stats.misses + 1))) ∧
    (∀ (c : StyleCache) (key v : String),
        lookupVal c.cache key = some v → v ≠ "" →
        (cacheGet c key).1 = some v ∧
        (cacheGet c key).2.stats.hits = c.stats.hits + 1 ∧
        (cacheGet c key).2.stats.misses = c.stats.misses) ∧
    (∀ (c : StyleCache) (key : String),
        (lookupVal c.cache key = none ∨ lookupVal c.cache key = some "") →
        (cacheGet c key).1 = none ∧
        (cacheGet c key).2.stats.hits = c.stats.hits ∧
        (cacheGet c key).2.stats.misses = c.stats.misses + 1) ∧
    (∀ (keys : List String) (c : StyleCache),
        c.stats.calls = c.stats.hits + c.stats.misses →
        (runLookups keys c).stats.calls =
          (runLookups keys c).stats.hits + (runLookups keys c).stats.misses) := by
  refine ⟨?_, ?_, ?_, runLookups_invariant⟩
  · intro c key
    obtain ⟨h1, _, h3⟩ := cacheGet_stats_step c key
    exact ⟨h1, h3⟩
  · intro c key v h hv
    rw [cacheGet_hit h hv]
    exact ⟨rfl, rfl, rfl⟩
  · intro c key h
    rcases h with h | h
    · rw [cacheGet_miss h]
      exact ⟨rfl, rfl, rfl⟩
    · rw [cacheGet_empty_artifact h]
      exact ⟨rfl, rfl, rfl⟩

/-- C4, counterexample to the claim as stated: in a cache where the key "k"
is present with the stored artifact "", a lookup for "k" returns not-found
and counts a miss, not a hit, because the source's truthiness test treats
the empty string like an absent entry. -/
theorem c4_lookup_bookkeeping_counterexample :
    lookupVal (StyleCache.mk [("k", "")] (CacheStats.mk 0 0 0 0)).cache "k" =
      some "" ∧
    (cacheGet (StyleCache.mk [("k", "")] (CacheStats.mk 0 0 0 0)) "k").1 =
      none ∧
    (cacheGet (StyleCache.mk [("k", "")]
        (CacheStats.mk 0 0 0 0)) "k").2.stats.hits = 0 ∧
    (cacheGet (StyleCache.mk [("k", "")]
        (CacheStats.mk 0 0 0 0)) "k").2.stats.misses = 1 := by
  refine ⟨rfl, ?_, ?_, ?_⟩ <;> decide

/-- C4, witness: the amended theorem applied to a one-entry cache with a
non-empty artifact, a lookup of a present key and of an absent key, and a
two-lookup sequence. -/
theorem c4_lookup_bookkeeping_witness :
    ((cacheGet (StyleCache.mk [("k", "v")] (CacheStats.mk 0 0 0 0)) "k").1 =
        some "v" ∧
      (cacheGet (StyleCache.mk [("k", "v")]
          (CacheStats.mk 0 0 0 0)) "k").2.stats.hits =
        (StyleCache.mk [("k", "v")] (CacheStats.mk 0 0 0 0)).stats.hits + 1 ∧
      (cacheGet (StyleCache.mk [("k", "v")]
          (CacheStats.mk 0 0 0 0)) "k").2.stats.misses =
        (StyleCache.mk [("k", "v")] (CacheStats.mk 0 0 0 0)).stats.misses) ∧
    ((cacheGet (StyleCache.mk [("k", "v")] (CacheStats.mk 0 0 0 0)) "x").1 =
        none) ∧
    ((runLookups ["k", "x"]
        (StyleCache.mk [("k", "v")] (CacheStats.mk 0 0 0 0))).stats.calls =
      (runLookups ["k", "x"]
        (StyleCache.mk [("k", "v")] (CacheStats.mk 0 0 0 0))).stats.hits +
      (runLookups ["k", "x"]
        (StyleCache.mk [("k", "v")] (CacheStats.mk 0 0 0 0))).stats.misses) :=
  ⟨c4_lookup_bookkeeping.2.1 (StyleCache.mk [("k", "v")] (CacheStats.mk 0 0 0 0))
      "k" "v" rfl (by decide),
    (c4_lookup_bookkeeping.2.2.1 (StyleCache.mk [("k", "v")]
      (CacheStats.mk 0 0 0 0)) "x" (Or.inl rfl)).1,
    c4_lookup_bookkeeping.2.2.2 ["k", "x"]
      (StyleCache.mk [("k", "v")] (CacheStats.mk 0 0 0 0)) rfl⟩

/-- C5, confirmed.  Resolving a merge node returns the other side's
resolution when one side resolves to absent, and otherwise the deep merge of
the two resolutions with right-hand values overriding left-hand values; in
particular resolving the merge of the static styles a:1 and a:2,b:3 yields
a:2,b:3.  The deep-merge utility is external to the repository and is
modelled from the spec's contract. -/
theorem c5_resolve_merge :
    (∀ (k : String) (left right : AbstractStyle),
        (computeStyles left = none →
          computeStyles (AbstractStyle.mergeS k left right) =
            computeStyles right) ∧
        (computeStyles right = none →
          computeStyles (AbstractStyle.mergeS k left right) =
            computeStyles left) ∧
        (∀ cl cr, computeStyles left = some cl →
          computeStyles right = some cr →
          computeStyles (AbstractStyle.mergeS k left right) =
            some (deepMergeObj cl cr))) ∧
    computeStyles (mergeStyles (createStyle (fun s => s) cssA1)
        (createStyle (fun s => s) cssA2B3)) = some cssA2B3 := by
  constructor
  · intro k left right
    refine ⟨?_, ?_, ?_⟩
    · intro h
      show mergeComputedStyles (computeStyles left) (computeStyles right) = _
      rw [h]
      cases computeStyles right <;> rfl
    · intro h
      show mergeComputedStyles (computeStyles left) (computeStyles right) = _
      rw [h]
      cases computeStyles left <;> rfl
    · intro cl cr hl hr
      show mergeComputedStyles (computeStyles left) (computeStyles right) = _
      rw [hl, hr]
      rfl
  · rfl

/-- C5, witness: the merge-node resolution cases applied at the sample
nodes: absent left side, absent right side, and two present sides. -/
theorem c5_resolve_merge_witness :
    computeStyles (AbstractStyle.mergeS "k" AbstractStyle.nullStyle nodeA) =
      computeStyles nodeA ∧
    computeStyles (AbstractStyle.mergeS "k" nodeA AbstractStyle.nullStyle) =
      computeStyles nodeA ∧
    computeStyles (AbstractStyle.mergeS "k" nodeA nodeB) =
      some (deepMergeObj cssA1 cssB2) :=
  ⟨(c5_resolve_merge.1 "k" AbstractStyle.nullStyle nodeA).1 rfl,
    (c5_resolve_merge.1 "k" nodeA AbstractStyle.nullStyle).2.1 rfl,
    (c5_resolve_merge.1 "k" nodeA nodeB).2.2 cssA1 cssB2 rfl rfl⟩

/-- C6, confirmed.  Merging two non-null nodes with equal composition keys
returns the left node itself; no merge node is constructed. -/
theorem c6_key_equal_returns_left (l r : AbstractStyle)
    (hl : l ≠ AbstractStyle.nullStyle) (hr : r ≠ AbstractStyle.nullStyle)
    (h : getKey l = getKey r) : mergeStyles l r = l :=
  mergeStyles_key_eq hl hr h

/-- C6, witness: merging the sample node A with itself returns it. -/
theorem c6_key_equal_returns_left_witness : mergeStyles nodeA nodeA = nodeA :=
  c6_key_equal_returns_left nodeA nodeA (fun h => AbstractStyle.noConfusion h)
    (fun h => AbstractStyle.noConfusion h) rfl

/-- C7, confirmed.  Merging any node with null on either side returns the
node unchanged, so the keys agree as well, and merging null with null
returns null. -/
theorem c7_null_identity (A : AbstractStyle) :
    mergeStyles A AbstractStyle.nullStyle = A ∧
    mergeStyles AbstractStyle.nullStyle A = A ∧
    getKey (mergeStyles A AbstractStyle.nullStyle) = getKey A ∧
    getKey (mergeStyles AbstractStyle.nullStyle A) = getKey A ∧
    mergeStyles AbstractStyle.nullStyle AbstractStyle.nullStyle =
      AbstractStyle.nullStyle :=
  ⟨mergeStyles_null_right A, mergeStyles_null_left A,
    by rw [mergeStyles_null_right], by rw [mergeStyles_null_left], rfl⟩

/-- C8, confirmed.  When the merged node's key is the no-style sentinel key,
the entry point returns the empty artifact and the cache — mapping and all
counters — is returned untouched, with no materializer invocation. -/
theorem c8_sentinel_fast_path (mat : Option CSS → Option CSS → String)
    (root sx : AbstractStyle) (c : StyleCache)
    (h : getKey (mergeStyles root sx) = nullStyleKey) :
    useSystem mat root sx c = ("", c, 0) :=
  useSystem_sentinel mat c h

/-- C8, witness: requesting the artifact for merge(none, none) against a
fresh cache returns the empty string and the untouched cache. -/
theorem c8_sentinel_fast_path_witness :
    useSystem sampleMat AbstractStyle.nullStyle AbstractStyle.nullStyle
      createStyleCache = ("", createStyleCache, 0) :=
  c8_sentinel_fast_path sampleMat AbstractStyle.nullStyle
    AbstractStyle.nullStyle createStyleCache rfl

/-- C9, confirmed.  The static-node key is a pure function of the style
object — a deterministic hash of its deterministic serialization — so two
static nodes built from structurally equal objects (equal values of the
object model) have equal keys, for any hash. -/
theorem c9_static_key_determinism (hashString : String → String)
    (o1 o2 : CSS) (h : o1 = o2) :
    getKey (createStyle hashString o1) = getKey (createStyle hashString o2) := by
  rw [h]

/-- C9, witness: two static nodes built from the same sample object share
their key. -/
theorem c9_static_key_determinism_witness :
    getKey (createStyle (fun s => s) cssA1) =
      getKey (createStyle (fun s => s) cssA1) :=
  c9_static_key_determinism (fun s => s) cssA1 cssA1 rfl

/-- C10, confirmed.  For an applier with base token `keyBase`: a string
props value is used verbatim in the key, any other props value is
JSON-serialized, and consequently the distinct props values "1" (string)
and 1 (number) produce identical keys. -/
theorem c10_dynamic_props_key (keyBase : String) (fn : JsVal → CSS) :
    (∀ s : String,
        getKey (createDynamicStyle keyBase fn (JsVal.str s)) =
          keyBase ++ "(" ++ s ++ ")") ∧
    (∀ p : JsVal, (∀ s, p ≠ JsVal.str s) →
        getKey (createDynamicStyle keyBase fn p) =
          keyBase ++ "(" ++ stringifyVal p ++ ")") ∧
    (JsVal.str "1" ≠ JsVal.num 1 ∧
      getKey (createDynamicStyle keyBase fn (JsVal.str "1")) =
        getKey (createDynamicStyle keyBase fn (JsVal.num 1))) := by
  refine ⟨fun s => rfl, ?_, fun h => JsVal.noConfusion h, rfl⟩
  intro p hp
  cases p with
  | str s2 => exact absurd rfl (hp s2)
  | num n => rfl
  | obj fs => rfl

/-- C10, witness: the applier key shapes at the base token "h", and the
collision of the string "1" with the number 1. -/
theorem c10_dynamic_props_key_witness :
    getKey (createDynamicStyle "h" constCSS (JsVal.str "p")) =
      "h" ++ "(" ++ "p" ++ ")" ∧
    getKey (createDynamicStyle "h" constCSS (JsVal.num 1)) =
      "h" ++ "(" ++ stringifyVal (JsVal.num 1) ++ ")" ∧
    getKey (createDynamicStyle "h" constCSS (JsVal.str "1")) =
      getKey (createDynamicStyle "h" constCSS (JsVal.num 1)) :=
  ⟨(c10_dynamic_props_key "h" constCSS).1 "p",
    (c10_dynamic_props_key "h" constCSS).2.1 (JsVal.num 1)
      (fun _ h => JsVal.noConfusion h),
    (c10_dynamic_props_key "h" constCSS).2.2.2⟩
